import Mathlib

/-!
A shallow embedding of proxy.py, a small threaded forwarding HTTP proxy,
together with proofs deciding the specification claims about it.

Modelling conventions:
 - Python strings are modelled as lists of characters (PyStr), Python byte
   strings as lists of byte values (Bytes).
 - Pure helpers (parse_headers, the URI rewrite, int(), str.split and
   friends) are translated directly.
 - The per-connection handler handle_client is a function of the blocklist
   and of an Env describing the outcome of every fallible external I/O
   step of that connection (what recv_until accumulated, whether each
   connect/sendall/recv raised, what select reported to the tunnel).  Its
   value is a HandleResult recording every observable effect: bytes written
   to each socket, log events, socket closes.
-/

namespace ProxySpec

/-- Python strings are modelled as lists of characters. -/
abbrev PyStr := List Char

/-- Python byte strings are modelled as lists of byte values. -/
abbrev Bytes := List Nat

/-- The whitespace characters of Python str.split() / str.strip()
(ASCII subset; the proxy only meets ASCII whitespace). -/
def isPyWS (c : Char) : Bool :=
  c = ' ' || c = '\t' || c = '\n' || c = '\r' || c = '\x0b' || c = '\x0c'

/-- Python str.strip(): drop leading and trailing whitespace. -/
def pyStrip (s : PyStr) : PyStr :=
  ((s.dropWhile isPyWS).reverse.dropWhile isPyWS).reverse

/-- Split a string at every character satisfying p; pieces may be empty.
This is Python s.split(sep) for a one-character separator, with p the
equality test against sep. -/
def splitAllP (p : Char → Bool) : PyStr → List PyStr
  | [] => [[]]
  | c :: cs =>
    match splitAllP p cs with
    | [] => [[]]
    | h :: t => if p c then [] :: h :: t else (c :: h) :: t

/-- Python s.split(sep) for a one-character separator. -/
def pySplitAll (sep : Char) (s : PyStr) : List PyStr :=
  splitAllP (fun c => c = sep) s

/-- Python s.split on the two-character separator CR LF, as used by
parse_headers on the decoded header block. -/
def splitCRLF : PyStr → List PyStr
  | [] => [[]]
  | '\r' :: '\n' :: rest => [] :: splitCRLF rest
  | c :: rest =>
    match splitCRLF rest with
    | [] => [[]]
    | h :: t => (c :: h) :: t

/-- Split at the first occurrence of sep: the effect of Python
s.split(sep, 1) when sep occurs in s, none when it does not. -/
def splitFirst (sep : Char) : PyStr → Option (PyStr × PyStr)
  | [] => none
  | c :: cs =>
    if c = sep then some ([], cs)
    else (splitFirst sep cs).map (fun ab => (c :: ab.1, ab.2))

/-- Python s.split(sep, maxsplit) for a one-character separator. -/
def pySplitMax (sep : Char) : Nat → PyStr → List PyStr
  | 0, s => [s]
  | n + 1, s =>
    match splitFirst sep s with
    | none => [s]
    | some ab => ab.1 :: pySplitMax sep n ab.2

/-- Python str.split() with no arguments: split on whitespace, dropping
empty pieces. -/
def pySplitWS (s : PyStr) : List PyStr :=
  (splitAllP isPyWS s).filter (fun w => !w.isEmpty)

/-- Python str.lower() on one character (ASCII range; domain names and
methods seen by the proxy are ASCII). -/
def pyLowerChar (c : Char) : Char :=
  if 65 ≤ c.toNat ∧ c.toNat ≤ 90 then Char.ofNat (c.toNat + 32) else c

/-- Python str.lower(). -/
def pyLower (s : PyStr) : PyStr := s.map pyLowerChar

/-- Python str.upper() on one character (ASCII range). -/
def pyUpperChar (c : Char) : Char :=
  if 97 ≤ c.toNat ∧ c.toNat ≤ 122 then Char.ofNat (c.toNat - 32) else c

/-- Python str.upper(). -/
def pyUpper (s : PyStr) : PyStr := s.map pyUpperChar

/-- Value of a non-empty all-digit string, none otherwise. -/
def digitsVal (l : PyStr) : Option Nat :=
  if l ≠ [] ∧ l.all (fun c => c.isDigit) then
    some (l.foldl (fun acc c => acc * 10 + (c.toNat - 48)) 0)
  else none

/-- Python int(s): surrounding whitespace stripped, optional sign, decimal
digits; none models the ValueError raise.  (PEP 515 underscore grouping is
not modelled; nothing below feeds it.) -/
def pyInt (s : PyStr) : Option Int :=
  match pyStrip s with
  | [] => none
  | c :: rest =>
    if c = '+' then (digitsVal rest).map (fun n => (n : Int))
    else if c = '-' then (digitsVal rest).map (fun n => -(n : Int))
    else (digitsVal (c :: rest)).map (fun n => (n : Int))

/-- Python dict assignment d[k] = v on an insertion-ordered dict: update in
place when the key is present (keeping its position), else append. -/
def dictInsert (hs : List (PyStr × PyStr)) (k v : PyStr) : List (PyStr × PyStr) :=
  match hs with
  | [] => [(k, v)]
  | kv :: t => if kv.1 = k then (k, v) :: t else kv :: dictInsert t k v

/-- Python dict lookup d.get(k). -/
def dictLookup (hs : List (PyStr × PyStr)) (k : PyStr) : Option PyStr :=
  match hs with
  | [] => none
  | kv :: t => if kv.1 = k then some kv.2 else dictLookup t k

/-- UTF-8 continuation byte test. -/
def isCont (b : Nat) : Bool := 0x80 ≤ b && b ≤ 0xBF

/-- One step of the errors-ignore UTF-8 decoder: decode one character, or
skip the leading byte of an invalid or truncated sequence.  Always consumes
at least one byte of a non-empty input.  (On an invalid multi-byte sequence
CPython skips the maximal subpart where this model skips the leading byte;
every claim below exercises the decoder on ASCII or only through
totality.) -/
def decodeStep : Bytes → Option Char × Bytes
  | [] => (none, [])
  | b :: bs =>
    if b ≤ 0x7F then (some (Char.ofNat b), bs)
    else if 0xC2 ≤ b && b ≤ 0xDF then
      match bs with
      | [] => (none, [])
      | b2 :: bs2 =>
        if isCont b2 then
          (some (Char.ofNat ((b - 0xC0) * 64 + (b2 - 0x80))), bs2)
        else (none, bs)
    else if 0xE0 ≤ b && b ≤ 0xEF then
      match bs with
      | [] => (none, [])
      | b2 :: bs2 =>
        if (if b = 0xE0 then 0xA0 ≤ b2 && b2 ≤ 0xBF
            else if b = 0xED then 0x80 ≤ b2 && b2 ≤ 0x9F
            else isCont b2) then
          match bs2 with
          | [] => (none, [])
          | b3 :: bs3 =>
            if isCont b3 then
              (some (Char.ofNat ((b - 0xE0) * 4096 + (b2 - 0x80) * 64 + (b3 - 0x80))),
                bs3)
            else (none, bs)
        else (none, bs)
    else if 0xF0 ≤ b && b ≤ 0xF4 then
      match bs with
      | [] => (none, [])
      | b2 :: bs2 =>
        if (if b = 0xF0 then 0x90 ≤ b2 && b2 ≤ 0xBF
            else if b = 0xF4 then 0x80 ≤ b2 && b2 ≤ 0x8F
            else isCont b2) then
          match bs2 with
          | [] => (none, [])
          | b3 :: bs3 =>
            if isCont b3 then
              match bs3 with
              | [] => (none, [])
              | b4 :: bs4 =>
                if isCont b4 then
                  (some (Char.ofNat ((b - 0xF0) * 262144 + (b2 - 0x80) * 4096 +
                      (b3 - 0x80) * 64 + (b4 - 0x80))), bs4)
                else (none, bs)
            else (none, bs)
        else (none, bs)
    else (none, bs)

/-- decodeStep consumes at least one byte of a non-empty input. -/
theorem decodeStep_length (b : Nat) (bs : Bytes) :
    ((decodeStep (b :: bs)).2).length < (b :: bs).length := by
  unfold decodeStep
  repeat' split
  all_goals simp_all [List.length_cons]
  all_goals omega

/-- The decode loop, with fuel making the recursion structural; since
decodeStep consumes at least one byte per iteration, fuel equal to the
input length (as supplied by decodeIgnore) never runs out. -/
def decodeLoop : Nat → Bytes → PyStr
  | 0, _ => []
  | _, [] => []
  | fuel + 1, b :: bs =>
    match decodeStep (b :: bs) with
    | (some c, rest) => c :: decodeLoop fuel rest
    | (none, rest) => decodeLoop fuel rest

/-- bytes.decode(errors = ignore): UTF-8 decoding that skips invalid bytes
instead of raising, so it is total on arbitrary byte sequences. -/
def decodeIgnore (l : Bytes) : PyStr := decodeLoop l.length l

/-- UTF-8 encoding of one character (str.encode()). -/
def encodeChar (c : Char) : Bytes :=
  let n := c.toNat
  if n ≤ 0x7F then [n]
  else if n ≤ 0x7FF then [0xC0 + n / 64, 0x80 + n % 64]
  else if n ≤ 0xFFFF then [0xE0 + n / 4096, 0x80 + n / 64 % 64, 0x80 + n % 64]
  else [0xF0 + n / 262144, 0x80 + n / 4096 % 64, 0x80 + n / 64 % 64, 0x80 + n % 64]

/-- str.encode(): UTF-8 encode a whole string. -/
def utf8Encode (s : PyStr) : Bytes := (s.map encodeChar).flatten

/-- One step of the parse_headers loop body (proxy.py lines 61-64): a line
containing a colon is split once at the colon and assigned into the ordered
header dict with lower-cased key and stripped value; other lines are
ignored. -/
def headerStep (hs : List (PyStr × PyStr)) (line : PyStr) : List (PyStr × PyStr) :=
  if ':' ∈ line then
    match splitFirst ':' line with
    | some kv => dictInsert hs (pyLower kv.1) (pyStrip kv.2)
    | none => hs
  else hs

/-- parse_headers (proxy.py lines 57-65) after decoding: split on CR LF,
the first line is the request line, the remaining lines populate the
ordered header mapping. -/
def parse_headers (text : PyStr) : PyStr × List (PyStr × PyStr) :=
  let lines := splitCRLF text
  (lines.headD [], lines.tail.foldl headerStep [])

/-- parse_headers applied to the raw header bytes, including the
errors-ignore decode step (proxy.py line 59). -/
def parse_headersB (bs : Bytes) : PyStr × List (PyStr × PyStr) :=
  parse_headers (decodeIgnore bs)

/-- The two sockets joined by tunnel(). -/
inductive Side where
  | cl : Side
  | sv : Side
deriving DecidableEq

/-- Why the relay loop ended. -/
inductive TReason where
  | idleTimeout : TReason
  | peerClosed : TReason
  | scriptEnd : TReason
deriving DecidableEq

/-- Observable effect of a tunnel() run: the chunks written to each socket,
in order, and why the loop ended. -/
structure TResult where
  toServer : List Bytes
  toClient : List Bytes
  reason : TReason
deriving DecidableEq

/-- The inner for-loop of tunnel() (proxy.py lines 76-80) over the readable
sockets of one select round: a zero-length read returns from the whole
function at once (dropping the rest of the round and the continuation); a
non-empty read is written to the opposite socket. -/
def stepRound : List (Side × Bytes) → TResult → TResult
  | [], cont => cont
  | sd :: rs, cont =>
    if sd.2 = [] then ⟨[], [], TReason.peerClosed⟩
    else
      let res := stepRound rs cont
      match sd.1 with
      | Side.cl => ⟨sd.2 :: res.toServer, res.toClient, res.reason⟩
      | Side.sv => ⟨res.toServer, sd.2 :: res.toClient, res.reason⟩

/-- tunnel() (proxy.py lines 70-80) driven by a script: element k of the
script lists the sockets select reported readable in round k, in iteration
order, each with the data its recv returned.  An empty round is a select
timeout (break).  Script exhaustion (scriptEnd) is an observation cut:
the loop would keep waiting beyond the modelled horizon. -/
def tunnelRun : List (List (Side × Bytes)) → TResult
  | [] => ⟨[], [], TReason.scriptEnd⟩
  | r :: rest =>
    if r = [] then ⟨[], [], TReason.idleTimeout⟩ else stepRound r (tunnelRun rest)

/-- A Python exception as the handler distinguishes them: socket.timeout is
caught silently (proxy.py line 171), any other Exception is logged as ERROR
(line 176). -/
inductive PyExc where
  | timeout : PyExc
  | err : PyStr → PyExc
deriving DecidableEq

/-- One proxy log line, keeping the event and its payload (the timestamp
and client address prefix carry no claim content and are omitted). -/
inductive LogEvent where
  | blocked : PyStr → LogEvent
  | connect : PyStr → Int → LogEvent
  | allowed : PyStr → Int → PyStr → LogEvent
  | error : PyStr → LogEvent
deriving DecidableEq

/-- Outcome of the single client.recv for a content-length body (line 157). -/
inductive BodyOutcome where
  | ok : Bytes → BodyOutcome
  | exc : PyExc → BodyOutcome
deriving DecidableEq

/-- Outcome of the response-relay loop (lines 160-167): the chunks it copied
to the client before ending normally by zero-read or recv timeout (done), or
before an exception escaped it (raises). -/
inductive RelayOutcome where
  | done : List Bytes → RelayOutcome
  | raises : List Bytes → PyExc → RelayOutcome
deriving DecidableEq

/-- The external nondeterminism of one handled connection: the bytes
recv_until accumulated and the outcome of each fallible I/O step.  A recv
failure inside recv_until and an empty accumulated buffer coincide
observably (no response, no upstream socket, no log, client closed) and are
both modelled by headerBytes = []. -/
structure Env where
  headerBytes : Bytes
  connectExc : Option PyExc
  send200Exc : Option PyExc
  tunnelScript : List (List (Side × Bytes))
  tunnelExc : Option PyExc
  fconnectExc : Option PyExc
  fsendExc : Option PyExc
  bodyOutcome : BodyOutcome
  relayOutcome : RelayOutcome
deriving DecidableEq

/-- Observable result of handle_client: every write, log entry and socket
event of the connection.  excAfterOpen records an exception (or silent
timeout) that escaped the try block after the upstream socket was opened. -/
structure HandleResult where
  clientSent : List Bytes
  upstreamOpened : Bool
  upstreamDest : Option (PyStr × Int)
  upstreamSent : List Bytes
  logs : List LogEvent
  serverClosed : Bool
  clientClosed : Bool
  excAfterOpen : Option PyExc
  forwardLine : Option PyStr
deriving DecidableEq

/-- A path that writes nothing, opens nothing and logs nothing; the finally
clause (line 179) always closes the client socket. -/
def base : HandleResult :=
  ⟨[], false, none, [], [], false, true, none, none⟩

def resp403S : String := "HTTP/1.1 403 Forbidden\r\n\r\nBlocked by proxy"

/-- The exact blocklist rejection bytes (proxy.py lines 109 and 132). -/
def resp403 : Bytes := utf8Encode resp403S.data

def resp200S : String := "HTTP/1.1 200 Connection Established\r\n\r\n"

/-- The CONNECT success bytes (proxy.py line 114). -/
def resp200 : Bytes := utf8Encode resp200S.data

def crlfS : String := "\r\n"

def crlf : PyStr := crlfS.data

def spS : String := " "

def sp : PyStr := spS.data

def colonSpS : String := ": "

def colonSp : PyStr := colonSpS.data

def sCONNECTS : String := "CONNECT"

def sCONNECT : PyStr := sCONNECTS.data

def hostKeyS : String := "host"

def hostKey : PyStr := hostKeyS.data

def clKeyS : String := "content-length"

def clKey : PyStr := clKeyS.data

def httpPfxS : String := "http://"

def httpPfx : PyStr := httpPfxS.data

def slashS : String := "/"

def slashStr : PyStr := slashS.data

def msgUnpack3S : String := "too many values to unpack"

/-- Message of the ValueError from unpacking a request line of more than
three tokens (line 99). -/
def msgUnpack3 : PyStr := msgUnpack3S.data

def msgUnpackConnectS : String := "CONNECT target does not unpack as host and port"

/-- Message of the ValueError from unpacking target.split at line 104. -/
def msgUnpackConnect : PyStr := msgUnpackConnectS.data

def msgUnpackHostS : String := "Host header does not unpack as host and port"

/-- Message of the ValueError from unpacking host.split at line 126. -/
def msgUnpackHost : PyStr := msgUnpackHostS.data

def msgIntS : String := "invalid literal for int"

/-- Message of the ValueError raised by int() on a non-numeric string. -/
def msgInt : PyStr := msgIntS.data

/-- Lines 145-147: each header replayed as key, colon, space, value, CRLF. -/
def joinHeaders (hs : List (PyStr × PyStr)) : PyStr :=
  (hs.map (fun kv => kv.1 ++ colonSp ++ kv.2 ++ crlf)).flatten

/-- Lines 144-147: the forwarded head: request line, headers in insertion
order, terminating blank line. -/
def serializeForward (line : PyStr) (hs : List (PyStr × PyStr)) : PyStr :=
  line ++ crlf ++ joinHeaders hs ++ crlf

/-- Lines 140-142: rewrite an absolute-URI request line to origin form;
the path is a slash followed by whatever target.split at slash with
maxsplit 3 leaves at index 3, provided the target has a slash past the
scheme prefix, else a bare slash. -/
def rewriteLine (method target version reqLine : PyStr) : PyStr :=
  if httpPfx.isPrefixOf target then
    let path :=
      if '/' ∈ target.drop 7 then '/' :: (pySplitMax '/' 3 target).getD 3 []
      else slashStr
    method ++ sp ++ path ++ sp ++ version
  else reqLine

/-- CONNECT branch after destination host and port are parsed (proxy.py
lines 108-119): blocklist check, upstream connect, 200 response, tunnel,
upstream close.  The upstream close at line 118 is skipped whenever an
exception escapes after the connect. -/
def connectAfterDest (blocked : List PyStr) (e : Env) (dest_host : PyStr)
    (dest_port : Int) : HandleResult :=
  if dest_host ∈ blocked then
    { base with clientSent := [resp403], logs := [LogEvent.blocked dest_host] }
  else
    match e.connectExc with
    | some PyExc.timeout => base
    | some (PyExc.err m) => { base with logs := [LogEvent.error m] }
    | none =>
      match e.send200Exc with
      | some PyExc.timeout =>
        { base with upstreamOpened := true, upstreamDest := some (dest_host, dest_port),
                    excAfterOpen := some PyExc.timeout }
      | some (PyExc.err m) =>
        { base with upstreamOpened := true, upstreamDest := some (dest_host, dest_port),
                    logs := [LogEvent.error m], excAfterOpen := some (PyExc.err m) }
      | none =>
        let tr := tunnelRun e.tunnelScript
        match e.tunnelExc with
        | none =>
          { base with clientSent := resp200 :: tr.toClient,
                      upstreamOpened := true,
                      upstreamDest := some (dest_host, dest_port),
                      upstreamSent := tr.toServer,
                      logs := [LogEvent.connect dest_host dest_port],
                      serverClosed := true }
        | some PyExc.timeout =>
          { base with clientSent := resp200 :: tr.toClient,
                      upstreamOpened := true,
                      upstreamDest := some (dest_host, dest_port),
                      upstreamSent := tr.toServer,
                      logs := [LogEvent.connect dest_host dest_port],
                      excAfterOpen := some PyExc.timeout }
        | some (PyExc.err m) =>
          { base with clientSent := resp200 :: tr.toClient,
                      upstreamOpened := true,
                      upstreamDest := some (dest_host, dest_port),
                      upstreamSent := tr.toServer,
                      logs := [LogEvent.connect dest_host dest_port, LogEvent.error m],
                      excAfterOpen := some (PyExc.err m) }

/-- CONNECT branch (proxy.py lines 103-119) including the host:port
unpacking and the int() parse that precede the blocklist check; either
failing raises a ValueError that the top-level handler logs as ERROR. -/
def connectBranch (blocked : List PyStr) (e : Env) (target : PyStr) : HandleResult :=
  match pySplitAll ':' target with
  | [h0, p0] =>
    match pyInt p0 with
    | some dest_port => connectAfterDest blocked e (pyLower h0) dest_port
    | none => { base with logs := [LogEvent.error msgInt] }
  | _ => { base with logs := [LogEvent.error msgUnpackConnect] }

/-- Response-relay phase and upstream close (proxy.py lines 160-169). -/
def relayPhase (opened : HandleResult) (sent : List Bytes) (logA : List LogEvent)
    (e : Env) : HandleResult :=
  match e.relayOutcome with
  | RelayOutcome.done chunks =>
    { opened with clientSent := chunks, upstreamSent := sent, logs := logA,
                  serverClosed := true }
  | RelayOutcome.raises chunks PyExc.timeout =>
    { opened with clientSent := chunks, upstreamSent := sent, logs := logA,
                  excAfterOpen := some PyExc.timeout }
  | RelayOutcome.raises chunks (PyExc.err m) =>
    { opened with clientSent := chunks, upstreamSent := sent,
                  logs := logA ++ [LogEvent.error m],
                  excAfterOpen := some (PyExc.err m) }

/-- Body-forwarding phase (proxy.py lines 155-158) followed by the relay:
when a content-length header is present its value is parsed by int()
(a ValueError escapes past the opened upstream socket), one client.recv
supplies the body and it is forwarded. -/
def bodyPhase (opened : HandleResult) (sent1 : List Bytes) (logA : List LogEvent)
    (headers : List (PyStr × PyStr)) (e : Env) : HandleResult :=
  match dictLookup headers clKey with
  | some clv =>
    match pyInt clv with
    | none =>
      { opened with upstreamSent := sent1, logs := logA ++ [LogEvent.error msgInt],
                    excAfterOpen := some (PyExc.err msgInt) }
    | some _ =>
      match e.bodyOutcome with
      | BodyOutcome.exc PyExc.timeout =>
        { opened with upstreamSent := sent1, logs := logA,
                      excAfterOpen := some PyExc.timeout }
      | BodyOutcome.exc (PyExc.err m) =>
        { opened with upstreamSent := sent1, logs := logA ++ [LogEvent.error m],
                      excAfterOpen := some (PyExc.err m) }
      | BodyOutcome.ok body => relayPhase opened (sent1 ++ [body]) logA e
  | none => relayPhase opened sent1 logA e

/-- Forwarding branch after the host has been lower-cased (proxy.py lines
131-169): blocklist check, upstream connect, URI rewrite, header replay,
ALLOWED log, body forward, response relay. -/
def forwardAfterDest (blocked : List PyStr) (e : Env)
    (reqLine target version method : PyStr) (headers : List (PyStr × PyStr))
    (host : PyStr) (port : Int) : HandleResult :=
  if host ∈ blocked then
    { base with clientSent := [resp403], logs := [LogEvent.blocked host] }
  else
    match e.fconnectExc with
    | some PyExc.timeout => base
    | some (PyExc.err m) => { base with logs := [LogEvent.error m] }
    | none =>
      let line2 := rewriteLine method target version reqLine
      let opened : HandleResult :=
        { base with upstreamOpened := true, upstreamDest := some (host, port),
                    forwardLine := some line2 }
      match e.fsendExc with
      | some PyExc.timeout => { opened with excAfterOpen := some PyExc.timeout }
      | some (PyExc.err m) =>
        { opened with logs := [LogEvent.error m], excAfterOpen := some (PyExc.err m) }
      | none =>
        bodyPhase opened [utf8Encode (serializeForward line2 headers)]
          [LogEvent.allowed host port line2] headers e

/-- Plaintext forwarding branch (proxy.py lines 121-169): extract host and
port from the Host header (default port 80, optional colon suffix; a bad
split or port raises a ValueError logged by the top level), lower-case the
host, then the rest of the pipeline. -/
def forwardBranch (blocked : List PyStr) (e : Env)
    (reqLine target version method : PyStr) (headers : List (PyStr × PyStr)) :
    HandleResult :=
  let host0 := (dictLookup headers hostKey).getD []
  if ':' ∈ host0 then
    match pySplitAll ':' host0 with
    | [h, p] =>
      match pyInt p with
      | some port =>
        forwardAfterDest blocked e reqLine target version method headers (pyLower h) port
      | none => { base with logs := [LogEvent.error msgInt] }
    | _ => { base with logs := [LogEvent.error msgUnpackHost] }
  else forwardAfterDest blocked e reqLine target version method headers (pyLower host0) 80

/-- handle_client (proxy.py lines 85-179) as a function of the blocklist
and the connection's external events. -/
def handle_client (blocked : List PyStr) (e : Env) : HandleResult :=
  if e.headerBytes = [] then base
  else
    let pr := parse_headersB e.headerBytes
    let parts := pySplitWS pr.1
    if parts.length < 3 then base
    else
      match parts with
      | [m0, target, version] =>
        let method := pyUpper m0
        if method = sCONNECT then connectBranch blocked e target
        else forwardBranch blocked e pr.1 target version method pr.2
      | _ => { base with logs := [LogEvent.error msgUnpack3] }

/-- The Destination a CONNECT target yields (lines 104-106): host before
the colon, lower-cased, and int() of the part after it. -/
def connectDest (target : PyStr) : Option (PyStr × Int) :=
  match pySplitAll ':' target with
  | [h0, p0] => (pyInt p0).map (fun n => (pyLower h0, n))
  | _ => none

/-- The Destination the Host header yields (lines 122-129): default port
80, optional colon suffix parsed by int(), host lower-cased. -/
def forwardDest (headers : List (PyStr × PyStr)) : Option (PyStr × Int) :=
  let host0 := (dictLookup headers hostKey).getD []
  if ':' ∈ host0 then
    match pySplitAll ':' host0 with
    | [h, p] => (pyInt p).map (fun n => (pyLower h, n))
    | _ => none
  else some (pyLower host0, 80)

/-- The Destination the handler derives from a raw header block, when the
derivation succeeds, mirroring handle_client's own parse path. -/
def derivedDest (bs : Bytes) : Option (PyStr × Int) :=
  if bs = [] then none
  else
    let pr := parse_headersB bs
    let parts := pySplitWS pr.1
    if parts.length < 3 then none
    else
      match parts with
      | [m0, target, _] =>
        if pyUpper m0 = sCONNECT then connectDest target else forwardDest pr.2
      | _ => none

/-! ### Character and string lemmas -/

/-- Lower-casing an already lower-cased character changes nothing. -/
theorem pyLowerChar_idem (c : Char) : pyLowerChar (pyLowerChar c) = pyLowerChar c := by
  unfold pyLowerChar
  by_cases h : 65 ≤ c.toNat ∧ c.toNat ≤ 90
  · rw [if_pos h]
    have hv : (c.toNat + 32).isValidChar := Or.inl (by omega)
    have ht : (Char.ofNat (c.toNat + 32)).toNat = c.toNat + 32 := by
      rw [Char.ofNat, dif_pos hv]; rfl
    have hn : ¬ (65 ≤ (Char.ofNat (c.toNat + 32)).toNat ∧
        (Char.ofNat (c.toNat + 32)).toNat ≤ 90) := by
      rw [ht]; omega
    rw [if_neg hn]
  · rw [if_neg h, if_neg h]

/-- str.lower() is idempotent. -/
theorem pyLower_idem (s : PyStr) : pyLower (pyLower s) = pyLower s := by
  unfold pyLower
  rw [List.map_map]
  apply List.map_congr_left
  intro c _
  exact pyLowerChar_idem c

/-- dropWhile is idempotent. -/
theorem dropWhile_idem (p : Char → Bool) (l : PyStr) :
    (l.dropWhile p).dropWhile p = l.dropWhile p := by
  induction l with
  | nil => rfl
  | cons c cs ih =>
    by_cases h : p c
    · simp [List.dropWhile_cons, h, ih]
    · simp [List.dropWhile_cons, h]

/-- The head surviving a dropWhile fails the predicate. -/
theorem dropWhile_head_not (p : Char → Bool) (l : PyStr) (c : Char)
    (h : (l.dropWhile p).head? = some c) : ¬ p c := by
  induction l with
  | nil => simp [List.dropWhile] at h
  | cons d ds ih =>
    by_cases hd : p d
    · rw [List.dropWhile_cons, if_pos hd] at h
      exact ih h
    · rw [List.dropWhile_cons, if_neg hd] at h
      simp at h
      exact h ▸ hd

/-- str.strip() is idempotent. -/
theorem pyStrip_idem (s : PyStr) : pyStrip (pyStrip s) = pyStrip s := by
  have hpre : pyStrip s <+: s.dropWhile isPyWS := by
    have hsuf : ((s.dropWhile isPyWS).reverse.dropWhile isPyWS) <:+
        (s.dropWhile isPyWS).reverse := List.dropWhile_suffix isPyWS
    have := List.reverse_prefix.mpr hsuf
    simpa [pyStrip] using this
  have hfront : (pyStrip s).dropWhile isPyWS = pyStrip s := by
    cases hv : pyStrip s with
    | nil => rfl
    | cons c cs =>
      obtain ⟨t, ht⟩ := hpre
      rw [hv] at ht
      have hhead : ((s.dropWhile isPyWS).dropWhile isPyWS).head? = some c := by
        rw [dropWhile_idem, ← ht]
        rfl
      have hc : ¬ isPyWS c := dropWhile_head_not isPyWS (s.dropWhile isPyWS) c hhead
      rw [List.dropWhile_cons, if_neg hc]
  have hrev : (pyStrip s).reverse.dropWhile isPyWS = (pyStrip s).reverse := by
    have h1 : (pyStrip s).reverse = (s.dropWhile isPyWS).reverse.dropWhile isPyWS := by
      unfold pyStrip
      rw [List.reverse_reverse]
    rw [h1, dropWhile_idem]
  show (((pyStrip s).dropWhile isPyWS).reverse.dropWhile isPyWS).reverse = pyStrip s
  rw [hfront, hrev, List.reverse_reverse]

/-! ### Reduction lemmas for handle_client -/

/-- With an empty accumulated header block the handler returns at once. -/
theorem handle_client_empty (b : List PyStr) (e : Env) (h : e.headerBytes = []) :
    handle_client b e = base := by
  unfold handle_client
  rw [if_pos h]

/-- A request line of fewer than three tokens makes the handler return
silently (proxy.py lines 95-97). -/
theorem handle_client_short (b : List PyStr) (e : Env)
    (hlt : (pySplitWS (parse_headersB e.headerBytes).1).length < 3) :
    handle_client b e = base := by
  unfold handle_client
  by_cases hne : e.headerBytes = []
  · rw [if_pos hne]
  · rw [if_neg hne]
    simp only [hlt, if_true]

/-- With exactly three tokens the handler dispatches on the method
(proxy.py lines 99-103 and 121). -/
theorem handle_client_parts3 (b : List PyStr) (e : Env) (m0 target version : PyStr)
    (hne : e.headerBytes ≠ [])
    (hp : pySplitWS (parse_headersB e.headerBytes).1 = [m0, target, version]) :
    handle_client b e =
      if pyUpper m0 = sCONNECT then connectBranch b e target
      else forwardBranch b e (parse_headersB e.headerBytes).1 target version
        (pyUpper m0) (parse_headersB e.headerBytes).2 := by
  unfold handle_client
  rw [if_neg hne]
  simp only [hp, List.length_cons, List.length_nil]
  norm_num

/-- A request line of more than three tokens raises a ValueError at the
tuple unpacking (line 99), logged as ERROR by the top-level handler. -/
theorem handle_client_over (b : List PyStr) (e : Env)
    (hgt : 3 < (pySplitWS (parse_headersB e.headerBytes).1).length) :
    handle_client b e = { base with logs := [LogEvent.error msgUnpack3] } := by
  have hne : e.headerBytes ≠ [] := by
    intro h
    rw [h] at hgt
    have h0 : (pySplitWS (parse_headersB ([] : Bytes)).1).length = 0 := rfl
    omega
  unfold handle_client
  rw [if_neg hne]
  rcases hq : pySplitWS (parse_headersB e.headerBytes).1 with _ | ⟨a1, _ | ⟨a2, _ | ⟨a3, _ | ⟨a4, tl⟩⟩⟩⟩
  all_goals rw [hq] at hgt
  all_goals simp only [List.length_cons, List.length_nil] at hgt
  · omega
  · omega
  · omega
  · omega
  · simp only [hq, List.length_cons]
    have h3 : ¬ (tl.length + 1 + 1 + 1 + 1 < 3) := by omega
    rw [if_neg h3]

/-- C7.  A request line with fewer than 3 whitespace-separated tokens makes
the handler close the client connection without writing any response bytes,
without opening an upstream socket, without logging, and (being total) the
worker does not crash. -/
theorem c7_short_request_line (b : List PyStr) (e : Env)
    (hlt : (pySplitWS (parse_headersB e.headerBytes).1).length < 3) :
    (handle_client b e).clientSent = [] ∧
    (handle_client b e).upstreamOpened = false ∧
    (handle_client b e).logs = [] ∧
    (handle_client b e).clientClosed = true := by
  rw [handle_client_short b e hlt]
  exact ⟨rfl, rfl, rfl, rfl⟩

def c7exS : String := "GET\r\n\r\n"

/-- Witness for C7 at the concrete request line GET. -/
theorem c7_witness :
    (pySplitWS (parse_headersB (utf8Encode c7exS.data)).1).length < 3 ∧
    (handle_client [] (Env.mk (utf8Encode c7exS.data) none none [] none none none
        (BodyOutcome.ok []) (RelayOutcome.done []))).clientSent = [] := by
  refine ⟨by decide, ?_⟩
  exact (c7_short_request_line [] (Env.mk (utf8Encode c7exS.data) none none [] none
    none none (BodyOutcome.ok []) (RelayOutcome.done [])) (by decide)).1

/-- C9.  A request line with more than three whitespace-separated tokens
raises a ValueError at tuple unpacking, caught at the top level: the
connection is closed with no response written, no upstream socket, and an
ERROR event is logged. -/
theorem c9_too_many_tokens (b : List PyStr) (e : Env)
    (hgt : 3 < (pySplitWS (parse_headersB e.headerBytes).1).length) :
    (handle_client b e).clientSent = [] ∧
    (handle_client b e).upstreamOpened = false ∧
    (handle_client b e).logs = [LogEvent.error msgUnpack3] ∧
    (handle_client b e).clientClosed = true := by
  rw [handle_client_over b e hgt]
  exact ⟨rfl, rfl, rfl, rfl⟩

def c9exS : String := "GET /a b HTTP/1.1\r\n\r\n"

/-- Witness for C9 at a request line with an embedded space in the target. -/
theorem c9_witness :
    3 < (pySplitWS (parse_headersB (utf8Encode c9exS.data)).1).length ∧
    (handle_client [] (Env.mk (utf8Encode c9exS.data) none none [] none none none
        (BodyOutcome.ok []) (RelayOutcome.done []))).logs = [LogEvent.error msgUnpack3] := by
  refine ⟨by decide, ?_⟩
  exact (c9_too_many_tokens [] (Env.mk (utf8Encode c9exS.data) none none [] none
    none none (BodyOutcome.ok []) (RelayOutcome.done [])) (by decide)).2.2.1

/-! ### Destination lemmas -/

/-- Unfolding a successful derivedDest into the handler's parse facts. -/
theorem derivedDest_spec (bs : Bytes) (h : PyStr) (p : Int)
    (hd : derivedDest bs = some (h, p)) :
    bs ≠ [] ∧ ∃ m0 t v, pySplitWS (parse_headersB bs).1 = [m0, t, v] ∧
      ((pyUpper m0 = sCONNECT ∧ connectDest t = some (h, p)) ∨
       (pyUpper m0 ≠ sCONNECT ∧ forwardDest (parse_headersB bs).2 = some (h, p))) := by
  unfold derivedDest at hd
  by_cases hne : bs = []
  · rw [if_pos hne] at hd
    exact absurd hd (by simp)
  · rw [if_neg hne] at hd
    by_cases hlt : (pySplitWS (parse_headersB bs).1).length < 3
    · simp only [if_pos hlt] at hd
      exact absurd hd (by simp)
    · simp only [if_neg hlt] at hd
      rcases hq : pySplitWS (parse_headersB bs).1 with _ | ⟨m0, _ | ⟨t, _ | ⟨v, _ | ⟨x, tl⟩⟩⟩⟩
      all_goals rw [hq] at hd
      all_goals simp only [] at hd
      · exact absurd hd (by simp)
      · exact absurd hd (by simp)
      · exact absurd hd (by simp)
      · refine ⟨hne, m0, t, v, rfl, ?_⟩
        by_cases hm : pyUpper m0 = sCONNECT
        · rw [if_pos hm] at hd
          exact Or.inl ⟨hm, hd⟩
        · rw [if_neg hm] at hd
          exact Or.inr ⟨hm, hd⟩
      · exact absurd hd (by simp)

/-- A successful CONNECT destination parse routes the CONNECT branch to its
post-destination stage. -/
theorem connectBranch_dest (b : List PyStr) (e : Env) (t h : PyStr) (p : Int)
    (hd : connectDest t = some (h, p)) :
    connectBranch b e t = connectAfterDest b e h p := by
  unfold connectDest at hd
  unfold connectBranch
  rcases hsp : pySplitAll ':' t with _ | ⟨h0, _ | ⟨p0, _ | ⟨x, tl⟩⟩⟩
  all_goals rw [hsp] at hd
  all_goals simp only [] at hd ⊢
  · exact absurd hd (by simp)
  · exact absurd hd (by simp)
  · rw [Option.map_eq_some'] at hd
    obtain ⟨n, hn, hpair⟩ := hd
    rw [hn]
    simp only []
    simp only [Prod.mk.injEq] at hpair
    rw [hpair.1, hpair.2]
  · exact absurd hd (by simp)

/-- A successful Host-header destination parse routes the forwarding branch
to its post-destination stage. -/
theorem forwardBranch_dest (b : List PyStr) (e : Env)
    (rl t v m : PyStr) (H : List (PyStr × PyStr)) (h : PyStr) (p : Int)
    (hd : forwardDest H = some (h, p)) :
    forwardBranch b e rl t v m H = forwardAfterDest b e rl t v m H h p := by
  unfold forwardDest at hd
  unfold forwardBranch
  by_cases hc : ':' ∈ (dictLookup H hostKey).getD []
  · simp only [if_pos hc] at hd ⊢
    rcases hsp : pySplitAll ':' ((dictLookup H hostKey).getD []) with _ | ⟨h0, _ | ⟨p0, _ | ⟨x, tl⟩⟩⟩
    all_goals rw [hsp] at hd
    all_goals simp only [] at hd ⊢
    · exact absurd hd (by simp)
    · exact absurd hd (by simp)
    · rw [Option.map_eq_some'] at hd
      obtain ⟨n, hn, hpair⟩ := hd
      rw [hn]
      simp only []
      simp only [Prod.mk.injEq] at hpair
      rw [hpair.1, hpair.2]
    · exact absurd hd (by simp)
  · simp only [if_neg hc] at hd ⊢
    simp only [Option.some.injEq, Prod.mk.injEq] at hd
    rw [hd.1, hd.2]

/-- A blocked host short-circuits the CONNECT branch to the exact 403
response and BLOCKED log entry. -/
theorem connectAfterDest_blocked (b : List PyStr) (e : Env) (h : PyStr) (p : Int)
    (hb : h ∈ b) :
    connectAfterDest b e h p =
      { base with clientSent := [resp403], logs := [LogEvent.blocked h] } := by
  unfold connectAfterDest
  rw [if_pos hb]

/-- A blocked host short-circuits the forwarding branch to the exact 403
response and BLOCKED log entry. -/
theorem forwardAfterDest_blocked (b : List PyStr) (e : Env)
    (rl t v m : PyStr) (H : List (PyStr × PyStr)) (host : PyStr) (port : Int)
    (hb : host ∈ b) :
    forwardAfterDest b e rl t v m H host port =
      { base with clientSent := [resp403], logs := [LogEvent.blocked host] } := by
  unfold forwardAfterDest
  rw [if_pos hb]

/-- C1.  For a domain in the blocklist, a CONNECT or plaintext request
whose derived (lower-cased) destination host is that domain never opens an
upstream socket, and the only bytes the client receives are exactly the 403
response, after which the connection is closed. -/
theorem c1_blocked_response (b : List PyStr) (e : Env) (h : PyStr) (p : Int)
    (hd : derivedDest e.headerBytes = some (h, p)) (hb : h ∈ b) :
    (handle_client b e).clientSent = [resp403] ∧
    (handle_client b e).upstreamOpened = false ∧
    (handle_client b e).upstreamSent = [] ∧
    (handle_client b e).logs = [LogEvent.blocked h] ∧
    (handle_client b e).clientClosed = true := by
  obtain ⟨hne, m0, t, v, hq, hcase⟩ := derivedDest_spec e.headerBytes h p hd
  have hcl := handle_client_parts3 b e m0 t v hne hq
  rcases hcase with ⟨hm, hct⟩ | ⟨hm, hft⟩
  · rw [if_pos hm] at hcl
    rw [hcl, connectBranch_dest b e t h p hct, connectAfterDest_blocked b e h p hb]
    exact ⟨rfl, rfl, rfl, rfl, rfl⟩
  · rw [if_neg hm] at hcl
    rw [hcl, forwardBranch_dest b e (parse_headersB e.headerBytes).1 t v (pyUpper m0)
      (parse_headersB e.headerBytes).2 h p hft,
      forwardAfterDest_blocked b e (parse_headersB e.headerBytes).1 t v (pyUpper m0)
      (parse_headersB e.headerBytes).2 h p hb]
    exact ⟨rfl, rfl, rfl, rfl, rfl⟩

def c1exS : String := "CONNECT Blocked.Example:443 HTTP/1.1\r\n\r\n"

def blockedExS : String := "blocked.example"

/-- Witness for C1: a CONNECT to Blocked.Example with blocked.example on
the blocklist receives exactly the 403 bytes. -/
theorem c1_witness :
    (handle_client [blockedExS.data] (Env.mk (utf8Encode c1exS.data) none none []
        none none none (BodyOutcome.ok []) (RelayOutcome.done []))).clientSent =
      [resp403] := by
  exact (c1_blocked_response [blockedExS.data]
    (Env.mk (utf8Encode c1exS.data) none none [] none none none
      (BodyOutcome.ok []) (RelayOutcome.done []))
    blockedExS.data 443 (by decide) (by decide)).1

/-! ### C8: the derived Destination -/

def c8exS : String := "CONNECT example.com:0 HTTP/1.1\r\n\r\n"

def exHostS : String := "example.com"

/-- Counterexample to C8 as stated: a CONNECT target with port 0 is parsed
into a Destination with port 0 — outside [1,65535] — and the handler even
attempts the upstream connection with it; the code never range-checks the
int() result. -/
theorem c8_counterexample :
    derivedDest (utf8Encode c8exS.data) = some (exHostS.data, 0) ∧
    (handle_client [] (Env.mk (utf8Encode c8exS.data) none none [] none none none
        (BodyOutcome.ok []) (RelayOutcome.done []))).upstreamDest =
      some (exHostS.data, 0) ∧
    ¬ ((1 : Int) ≤ 0 ∧ (0 : Int) ≤ 65535) := by
  refine ⟨by decide, by decide, by decide⟩

/-- C8 amended.  Every Destination the proxy derives — CONNECT target or
Host header (default port 80) — has a lower-cased host; the port is
whatever integer int() accepts, with no range validation. -/
theorem c8_amended (bs : Bytes) (h : PyStr) (p : Int)
    (hd : derivedDest bs = some (h, p)) : pyLower h = h := by
  obtain ⟨_, m0, t, v, _, hcase⟩ := derivedDest_spec bs h p hd
  rcases hcase with ⟨_, hct⟩ | ⟨_, hft⟩
  · unfold connectDest at hct
    rcases hsp : pySplitAll ':' t with _ | ⟨h0, _ | ⟨p0, _ | ⟨x, tl⟩⟩⟩
    all_goals rw [hsp] at hct
    all_goals simp only [] at hct
    · exact absurd hct (by simp)
    · exact absurd hct (by simp)
    · rw [Option.map_eq_some'] at hct
      obtain ⟨n, _, hpair⟩ := hct
      simp only [Prod.mk.injEq] at hpair
      rw [← hpair.1]
      exact pyLower_idem h0
    · exact absurd hct (by simp)
  · unfold forwardDest at hft
    by_cases hc : ':' ∈ (dictLookup (parse_headersB bs).2 hostKey).getD []
    · simp only [if_pos hc] at hft
      rcases hsp : pySplitAll ':' ((dictLookup (parse_headersB bs).2 hostKey).getD [])
        with _ | ⟨h0, _ | ⟨p0, _ | ⟨x, tl⟩⟩⟩
      all_goals rw [hsp] at hft
      all_goals simp only [] at hft
      · exact absurd hft (by simp)
      · exact absurd hft (by simp)
      · rw [Option.map_eq_some'] at hft
        obtain ⟨n, _, hpair⟩ := hft
        simp only [Prod.mk.injEq] at hpair
        rw [← hpair.1]
        exact pyLower_idem h0
      · exact absurd hft (by simp)
    · simp only [if_neg hc] at hft
      simp only [Option.some.injEq, Prod.mk.injEq] at hft
      rw [← hft.1]
      exact pyLower_idem _

/-- Witness for the amended C8 at the port-0 CONNECT input. -/
theorem c8_witness : pyLower exHostS.data = exHostS.data :=
  c8_amended (utf8Encode c8exS.data) exHostS.data 0 (by decide)

/-! ### C2: malformed input -/

/-- An Env whose connection delivers the given header text and whose
external I/O all succeeds trivially. -/
def envOf (s : String) : Env :=
  Env.mk (utf8Encode s.data) none none [] none none none
    (BodyOutcome.ok []) (RelayOutcome.done [])

/-- A CONNECT target that does not parse as host and port (missing colon,
extra colon, or non-integer port) raises a ValueError before the blocklist
check; the top level logs it as ERROR, and nothing is sent. -/
theorem connectBranch_malformed (b : List PyStr) (e : Env) (t : PyStr)
    (hd : connectDest t = none) :
    connectBranch b e t = { base with logs := [LogEvent.error msgUnpackConnect] } ∨
    connectBranch b e t = { base with logs := [LogEvent.error msgInt] } := by
  unfold connectDest at hd
  unfold connectBranch
  rcases hsp : pySplitAll ':' t with _ | ⟨h0, _ | ⟨p0, _ | ⟨x, tl⟩⟩⟩
  all_goals rw [hsp] at hd
  all_goals simp only [] at hd ⊢
  · exact Or.inl trivial
  · exact Or.inl trivial
  · rw [Option.map_eq_none'] at hd
    rw [hd]
    simp only []
    exact Or.inr trivial
  · exact Or.inl trivial

def c2exS : String := "CONNECT example.com HTTP/1.1\r\n\r\n"

/-- Counterexample to C2 as stated: on a CONNECT whose target has no colon
the handler writes no response bytes, but it does NOT stay silent in the
log — the ValueError from the target unpacking is logged as an ERROR
event, so the log is not empty. -/
theorem c2_counterexample :
    (handle_client [] (envOf c2exS)).clientSent = [] ∧
    (handle_client [] (envOf c2exS)).logs = [LogEvent.error msgUnpackConnect] ∧
    (handle_client [] (envOf c2exS)).logs ≠ [] := by
  exact ⟨by decide, by decide, by decide⟩

/-- C2 amended.  A request line with fewer than three tokens aborts the
connection silently: no response bytes, no upstream socket, no log entry of
any kind.  A CONNECT target that does not split as host:port (or whose
port int() rejects) also writes no response bytes and opens no upstream
socket, but it is not silent: the top-level handler logs the ValueError as
an ERROR event. -/
theorem c2_amended :
    (∀ b e, (pySplitWS (parse_headersB e.headerBytes).1).length < 3 →
      handle_client b e = base) ∧
    (∀ b e m0 t v, e.headerBytes ≠ [] →
      pySplitWS (parse_headersB e.headerBytes).1 = [m0, t, v] →
      pyUpper m0 = sCONNECT → connectDest t = none →
      (handle_client b e).clientSent = [] ∧
      (handle_client b e).upstreamOpened = false ∧
      ∃ m, (handle_client b e).logs = [LogEvent.error m]) := by
  constructor
  · intro b e h
    exact handle_client_short b e h
  · intro b e m0 t v hne hp hm hd
    have hcl := handle_client_parts3 b e m0 t v hne hp
    rw [if_pos hm] at hcl
    rcases connectBranch_malformed b e t hd with h1 | h1
    · rw [hcl, h1]
      exact ⟨rfl, rfl, msgUnpackConnect, rfl⟩
    · rw [hcl, h1]
      exact ⟨rfl, rfl, msgInt, rfl⟩

def c2targetS : String := "example.com"

def verS : String := "HTTP/1.1"

/-- Witness for the amended C2 at the colon-free CONNECT target. -/
theorem c2_witness :
    (handle_client [] (envOf c2exS)).upstreamOpened = false :=
  (c2_amended.2 [] (envOf c2exS) sCONNECT c2targetS.data verS.data
    (by decide) (by decide) (by decide) (by decide)).2.1

/-! ### C3: socket closing discipline -/

def msgBrokenS : String := "broken pipe"

/-- An Env for a CONNECT where the 200 response write raises after the
upstream socket has been opened. -/
def envLeak : Env :=
  Env.mk (utf8Encode c1exS.data) none (some (PyExc.err msgBrokenS.data)) []
    none none none (BodyOutcome.ok []) (RelayOutcome.done [])

/-- Counterexample to C3 as stated: when client.sendall of the 200 response
raises after the upstream connect succeeded, the handler's except/finally
close only the client socket; server.close() at line 118 is skipped and the
upstream socket is never closed before the handler returns. -/
theorem c3_counterexample :
    (handle_client [] envLeak).upstreamOpened = true ∧
    (handle_client [] envLeak).serverClosed = false ∧
    (handle_client [] envLeak).clientClosed = true ∧
    (handle_client [] envLeak).logs = [LogEvent.error msgBrokenS.data] := by
  exact ⟨by decide, by decide, by decide, by decide⟩

/-- Socket discipline of the relay phase: starting from an opened upstream
with no prior escape, the server gets closed exactly when the relay ends
without an escaping exception. -/
theorem relayPhase_sock (opened : HandleResult) (sent : List Bytes)
    (logA : List LogEvent) (e : Env)
    (h1 : opened.clientClosed = true) (h2 : opened.excAfterOpen = none)
    (h3 : opened.serverClosed = false) :
    (relayPhase opened sent logA e).clientClosed = true ∧
    ((relayPhase opened sent logA e).serverClosed = true ↔
      (relayPhase opened sent logA e).excAfterOpen = none) := by
  unfold relayPhase
  rcases hro : e.relayOutcome with chunks | ⟨chunks, exc⟩
  · simp only []
    simp [h1, h2]
  · rcases exc with _ | m
    · simp only []
      simp [h1, h3]
    · simp only []
      simp [h1, h3]

/-- Socket discipline of the body phase. -/
theorem bodyPhase_sock (opened : HandleResult) (sent1 : List Bytes)
    (logA : List LogEvent) (headers : List (PyStr × PyStr)) (e : Env)
    (h1 : opened.clientClosed = true) (h2 : opened.excAfterOpen = none)
    (h3 : opened.serverClosed = false) :
    (bodyPhase opened sent1 logA headers e).clientClosed = true ∧
    ((bodyPhase opened sent1 logA headers e).serverClosed = true ↔
      (bodyPhase opened sent1 logA headers e).excAfterOpen = none) := by
  unfold bodyPhase
  rcases hdl : dictLookup headers clKey with _ | clv
  · simp only []
    exact relayPhase_sock opened sent1 logA e h1 h2 h3
  · simp only []
    rcases hpi : pyInt clv with _ | n
    · simp only []
      simp [h1, h3]
    · simp only []
      rcases hbo : e.bodyOutcome with body | exc
      · simp only []
        exact relayPhase_sock opened (sent1 ++ [body]) logA e h1 h2 h3
      · rcases exc with _ | m
        · simp only []
          simp [h1, h3]
        · simp only []
          simp [h1, h3]

/-- Socket discipline of the CONNECT branch past destination parsing. -/
theorem connectAfterDest_sock (b : List PyStr) (e : Env) (h : PyStr) (p : Int) :
    (connectAfterDest b e h p).clientClosed = true ∧
    ((connectAfterDest b e h p).upstreamOpened = true →
      ((connectAfterDest b e h p).serverClosed = true ↔
       (connectAfterDest b e h p).excAfterOpen = none)) := by
  unfold connectAfterDest
  by_cases hb : h ∈ b
  · rw [if_pos hb]
    simp [base]
  · rw [if_neg hb]
    rcases e.connectExc with _ | exc
    · simp only []
      rcases e.send200Exc with _ | exc2
      · simp only []
        rcases e.tunnelExc with _ | exc3
        · simp [base]
        · rcases exc3 with _ | m
          · simp [base]
          · simp [base]
      · rcases exc2 with _ | m
        · simp [base]
        · simp [base]
    · rcases exc with _ | m
      · simp [base]
      · simp [base]

/-- Socket discipline of the forwarding branch past destination parsing. -/
theorem forwardAfterDest_sock (b : List PyStr) (e : Env)
    (rl t v m : PyStr) (H : List (PyStr × PyStr)) (host : PyStr) (port : Int) :
    (forwardAfterDest b e rl t v m H host port).clientClosed = true ∧
    ((forwardAfterDest b e rl t v m H host port).upstreamOpened = true →
      ((forwardAfterDest b e rl t v m H host port).serverClosed = true ↔
       (forwardAfterDest b e rl t v m H host port).excAfterOpen = none)) := by
  unfold forwardAfterDest
  by_cases hb : host ∈ b
  · rw [if_pos hb]
    simp [base]
  · rw [if_neg hb]
    rcases e.fconnectExc with _ | exc
    · simp only []
      rcases e.fsendExc with _ | exc2
      · simp only []
        refine ⟨(bodyPhase_sock _ _ _ _ e rfl rfl rfl).1, fun _ =>
          (bodyPhase_sock _ _ _ _ e rfl rfl rfl).2⟩
      · rcases exc2 with _ | m2
        · simp [base]
        · simp [base]
    · rcases exc with _ | m2
      · simp [base]
      · simp [base]

/-- C3 amended.  The client socket is closed on every exit path (the
finally clause); the upstream socket, once opened, is closed exactly on
the paths where no exception or timeout escapes the try block after the
open — any escaping exception skips the server.close() at lines 118/169
and leaks the upstream socket. -/
theorem c3_amended (b : List PyStr) (e : Env) :
    (handle_client b e).clientClosed = true ∧
    ((handle_client b e).upstreamOpened = true →
      ((handle_client b e).serverClosed = true ↔
       (handle_client b e).excAfterOpen = none)) := by
  have hbase : base.clientClosed = true ∧ (base.upstreamOpened = true →
      (base.serverClosed = true ↔ base.excAfterOpen = none)) := by
    exact ⟨rfl, fun hop => absurd hop (by decide)⟩
  by_cases hne : e.headerBytes = []
  · rw [handle_client_empty b e hne]
    exact hbase
  · rcases hq : pySplitWS (parse_headersB e.headerBytes).1
      with _ | ⟨m0, _ | ⟨t, _ | ⟨v, _ | ⟨x, tl⟩⟩⟩⟩
    · rw [handle_client_short b e (by rw [hq]; simp)]
      exact hbase
    · rw [handle_client_short b e (by rw [hq]; simp)]
      exact hbase
    · rw [handle_client_short b e (by rw [hq]; simp)]
      exact hbase
    · rw [handle_client_parts3 b e m0 t v hne hq]
      by_cases hm : pyUpper m0 = sCONNECT
      · rw [if_pos hm]
        unfold connectBranch
        rcases hsp : pySplitAll ':' t with _ | ⟨h0, _ | ⟨p0, _ | ⟨y, tl2⟩⟩⟩
        all_goals simp only []
        · exact ⟨rfl, fun hop => absurd hop (by decide)⟩
        · exact ⟨rfl, fun hop => absurd hop (by decide)⟩
        · rcases hpi : pyInt p0 with _ | n
          · simp only []
            exact ⟨rfl, fun hop => absurd hop (by decide)⟩
          · simp only []
            exact connectAfterDest_sock b e (pyLower h0) n
        · exact ⟨rfl, fun hop => absurd hop (by decide)⟩
      · rw [if_neg hm]
        unfold forwardBranch
        by_cases hc : ':' ∈ (dictLookup (parse_headersB e.headerBytes).2 hostKey).getD []
        · rw [if_pos hc]
          rcases hsp : pySplitAll ':'
              ((dictLookup (parse_headersB e.headerBytes).2 hostKey).getD [])
            with _ | ⟨h0, _ | ⟨p0, _ | ⟨y, tl2⟩⟩⟩
          all_goals simp only []
          · exact ⟨rfl, fun hop => absurd hop (by decide)⟩
          · exact ⟨rfl, fun hop => absurd hop (by decide)⟩
          · rcases hpi : pyInt p0 with _ | n
            · simp only []
              exact ⟨rfl, fun hop => absurd hop (by decide)⟩
            · simp only []
              exact forwardAfterDest_sock b e (parse_headersB e.headerBytes).1 t v
                (pyUpper m0) (parse_headersB e.headerBytes).2 (pyLower h0) n
          · exact ⟨rfl, fun hop => absurd hop (by decide)⟩
        · rw [if_neg hc]
          exact forwardAfterDest_sock b e (parse_headersB e.headerBytes).1 t v
            (pyUpper m0) (parse_headersB e.headerBytes).2
            (pyLower ((dictLookup (parse_headersB e.headerBytes).2 hostKey).getD [])) 80
    · rw [handle_client_over b e (by rw [hq]; simp)]
      exact ⟨rfl, fun hop => absurd hop (by decide)⟩

/-- Witness for the amended C3: on a clean CONNECT run the upstream socket
is closed. -/
theorem c3_witness :
    (handle_client [] (envOf c1exS)).serverClosed = true :=
  ((c3_amended [] (envOf c1exS)).2 (by decide)).mpr (by decide)

/-! ### C4: the URI rewrite -/

/-- Spec-side: the suffix strictly after the n-th occurrence of sep, none
when sep occurs fewer than n times. -/
def afterNth (sep : Char) : Nat → PyStr → Option PyStr
  | 0, s => some s
  | n + 1, s =>
    match splitFirst sep s with
    | none => none
    | some ab => afterNth sep n ab.2

/-- Spec-side origin-form path, written from the claim: a slash followed by
everything after the third slash of the target, a bare slash when the
target has no third slash. -/
def specPath (target : PyStr) : PyStr :=
  match afterNth '/' 3 target with
  | some suf => '/' :: suf
  | none => slashStr

/-- splitFirst finds nothing exactly when the separator does not occur. -/
theorem splitFirst_eq_none_iff (sep : Char) (s : PyStr) :
    splitFirst sep s = none ↔ sep ∉ s := by
  induction s with
  | nil => simp [splitFirst]
  | cons c cs ih =>
    by_cases hc : c = sep
    · rw [hc]
      simp [splitFirst]
    · rw [splitFirst, if_neg hc, Option.map_eq_none']
      rw [List.mem_cons]
      constructor
      · intro h hor
        rcases hor with h1 | h1
        · exact hc h1.symm
        · exact (ih.mp h) h1
      · intro h
        exact ih.mpr (fun hm => h (Or.inr hm))

/-- One occurrence: afterNth 1 is the part after the first separator. -/
theorem afterNth_one (sep : Char) (s : PyStr) :
    afterNth sep 1 s = (splitFirst sep s).map (fun ab => ab.2) := by
  unfold afterNth
  rcases h : splitFirst sep s with _ | ab
  · simp
  · simp [afterNth]

/-- Behind the scheme prefix, the third slash of the target is the first
slash of the remainder. -/
theorem afterNth_httpPfx (rest : PyStr) :
    afterNth '/' 3 (httpPfx ++ rest) = (splitFirst '/' rest).map (fun ab => ab.2) := by
  have h1 : afterNth '/' 3 (httpPfx ++ rest) = afterNth '/' 1 rest := rfl
  rw [h1, afterNth_one]

/-- Index n of split-with-maxsplit n is exactly the suffix after the n-th
separator, whenever that suffix exists. -/
theorem pySplitMax_getD (sep : Char) (n : Nat) (s suf : PyStr)
    (h : afterNth sep n s = some suf) :
    (pySplitMax sep n s).getD n [] = suf := by
  induction n generalizing s with
  | zero =>
    unfold afterNth at h
    simp only [Option.some.injEq] at h
    rw [← h]
    rfl
  | succ n ih =>
    unfold afterNth at h
    rcases hsf : splitFirst sep s with _ | ab
    · rw [hsf] at h
      exact absurd h (by simp)
    · rw [hsf] at h
      simp only [] at h
      unfold pySplitMax
      rw [hsf]
      simp only []
      rw [List.getD_cons_succ]
      exact ih ab.2 h

/-- Dropping the 7-character scheme prefix leaves the remainder. -/
theorem drop_httpPfx (rest : PyStr) : (httpPfx ++ rest).drop 7 = rest := rfl

/-- A list is a Boolean prefix of itself extended by anything. -/
theorem isPrefixOf_append (l r : PyStr) : l.isPrefixOf (l ++ r) = true := by
  induction l with
  | nil =>
    cases r with
    | nil => rfl
    | cons c cs => rfl
  | cons a as ih => simp [List.isPrefixOf, ih]

/-- The scheme prefix is a prefix of any string extending it. -/
theorem httpPfx_isPrefixOf (rest : PyStr) :
    httpPfx.isPrefixOf (httpPfx ++ rest) = true :=
  isPrefixOf_append httpPfx rest

/-- The URI rewrite (lines 140-142) produces exactly METHOD, the spec-side
origin-form path, VERSION. -/
theorem rewriteLine_spec (method version rl rest : PyStr) :
    rewriteLine method (httpPfx ++ rest) version rl =
      method ++ sp ++ specPath (httpPfx ++ rest) ++ sp ++ version := by
  unfold rewriteLine
  rw [httpPfx_isPrefixOf rest]
  simp only [if_true]
  rw [drop_httpPfx]
  by_cases hmem : '/' ∈ rest
  · rw [if_pos hmem]
    have hsome : ∃ ab, splitFirst '/' rest = some ab := by
      rcases h : splitFirst '/' rest with _ | ab
      · exact absurd ((splitFirst_eq_none_iff '/' rest).mp h) (by simp [hmem])
      · exact ⟨ab, rfl⟩
    obtain ⟨ab, hab⟩ := hsome
    have hafter : afterNth '/' 3 (httpPfx ++ rest) = some ab.2 := by
      rw [afterNth_httpPfx, hab]
      rfl
    have hgd := pySplitMax_getD '/' 3 (httpPfx ++ rest) ab.2 hafter
    rw [hgd]
    unfold specPath
    rw [hafter]
  · rw [if_neg hmem]
    have hnone : afterNth '/' 3 (httpPfx ++ rest) = none := by
      rw [afterNth_httpPfx, (splitFirst_eq_none_iff '/' rest).mpr hmem]
      rfl
    unfold specPath
    rw [hnone]

/-- The relay phase never touches the recorded forwarded request line. -/
theorem relayPhase_forwardLine (opened : HandleResult) (sent : List Bytes)
    (logA : List LogEvent) (e : Env) :
    (relayPhase opened sent logA e).forwardLine = opened.forwardLine := by
  unfold relayPhase
  rcases hro : e.relayOutcome with chunks | ⟨chunks, exc⟩
  · rfl
  · rcases exc with _ | m
    · rfl
    · rfl

/-- The body phase never touches the recorded forwarded request line. -/
theorem bodyPhase_forwardLine (opened : HandleResult) (sent1 : List Bytes)
    (logA : List LogEvent) (headers : List (PyStr × PyStr)) (e : Env) :
    (bodyPhase opened sent1 logA headers e).forwardLine = opened.forwardLine := by
  unfold bodyPhase
  rcases hdl : dictLookup headers clKey with _ | clv
  · exact relayPhase_forwardLine opened sent1 logA e
  · simp only []
    rcases hpi : pyInt clv with _ | n
    · rfl
    · simp only []
      rcases hbo : e.bodyOutcome with body | exc
      · exact relayPhase_forwardLine opened (sent1 ++ [body]) logA e
      · rcases exc with _ | m
        · rfl
        · rfl

/-- Once the upstream connect succeeds, the forwarding branch records the
(possibly rewritten) request line, whatever happens later. -/
theorem forwardAfterDest_forwardLine (b : List PyStr) (e : Env)
    (rl t v m : PyStr) (H : List (PyStr × PyStr)) (host : PyStr) (port : Int)
    (hb : host ∉ b) (hc : e.fconnectExc = none) :
    (forwardAfterDest b e rl t v m H host port).forwardLine =
      some (rewriteLine m t v rl) := by
  unfold forwardAfterDest
  rw [if_neg hb, hc]
  simp only []
  rcases hfs : e.fsendExc with _ | exc
  · simp only []
    rw [bodyPhase_forwardLine]
  · rcases exc with _ | m2
    · rfl
    · rfl

/-- C4.  When the target begins with the literal prefix http://, the
request line sent upstream is METHOD path VERSION, where path is a slash
followed by everything after the third slash of the target, or a bare
slash when the target has no slash past the prefix. -/
theorem c4_uri_rewrite (b : List PyStr) (e : Env)
    (m0 target version h : PyStr) (p : Int) (rest : PyStr)
    (hne : e.headerBytes ≠ [])
    (hp : pySplitWS (parse_headersB e.headerBytes).1 = [m0, target, version])
    (hm : pyUpper m0 ≠ sCONNECT)
    (hd : forwardDest (parse_headersB e.headerBytes).2 = some (h, p))
    (hb : h ∉ b)
    (hc : e.fconnectExc = none)
    (ht : target = httpPfx ++ rest) :
    (handle_client b e).forwardLine =
      some (pyUpper m0 ++ sp ++ specPath target ++ sp ++ version) := by
  have hcl := handle_client_parts3 b e m0 target version hne hp
  rw [if_neg hm] at hcl
  rw [hcl, forwardBranch_dest b e (parse_headersB e.headerBytes).1 target version
    (pyUpper m0) (parse_headersB e.headerBytes).2 h p hd,
    forwardAfterDest_forwardLine b e (parse_headersB e.headerBytes).1 target version
    (pyUpper m0) (parse_headersB e.headerBytes).2 h p hb hc]
  rw [ht, rewriteLine_spec]

def c4exS : String := "GET http://example.com/a/b?x=1 HTTP/1.1\r\n\r\n"

def mGETS : String := "GET"

def c4targetS : String := "http://example.com/a/b?x=1"

def c4restS : String := "example.com/a/b?x=1"

/-- Witness for C4 at the example target of the spec. -/
theorem c4_witness :
    (handle_client [] (envOf c4exS)).forwardLine =
      some (pyUpper mGETS.data ++ sp ++ specPath c4targetS.data ++ sp ++ verS.data) := by
  exact c4_uri_rewrite [] (envOf c4exS) mGETS.data c4targetS.data verS.data [] 80
    c4restS.data (by decide) (by decide) (by decide) (by decide) (by simp)
    (by decide) (by decide)

/-! ### C5: the byte relay -/

/-- The observable events of a tunnel run, flattened: a select timeout, or
one recv on one side returning the given data. -/
inductive TEvent where
  | timeoutEv : TEvent
  | readEv : Side → Bytes → TEvent
deriving DecidableEq

/-- The events one select round contributes. -/
def roundEvents (r : List (Side × Bytes)) : List TEvent :=
  if r = [] then [TEvent.timeoutEv] else r.map (fun sd => TEvent.readEv sd.1 sd.2)

/-- All events of a script, in order. -/
def eventsOf (script : List (List (Side × Bytes))) : List TEvent :=
  (script.map roundEvents).flatten

/-- Spec-side stop test, from the claim: the relay terminates exactly at a
select timeout or at a zero-byte read. -/
def isStop : TEvent → Bool
  | TEvent.timeoutEv => true
  | TEvent.readEv _ d => d.isEmpty

def notStop (ev : TEvent) : Bool := !isStop ev

/-- Spec-side: the chunks written to dst are exactly the non-empty reads of
the opposite side strictly before the first stop event, in order. -/
def writesTo (dst : Side) (evs : List TEvent) : List Bytes :=
  (evs.takeWhile notStop).filterMap (fun ev =>
    match ev with
    | TEvent.readEv s d => if s = dst then none else some d
    | TEvent.timeoutEv => none)

/-- Spec-side: why the relay stopped — the kind of the first stop event,
or an observation cut when there is none. -/
def stopReason (evs : List TEvent) : TReason :=
  match evs.dropWhile notStop with
  | [] => TReason.scriptEnd
  | TEvent.timeoutEv :: _ => TReason.idleTimeout
  | TEvent.readEv _ _ :: _ => TReason.peerClosed

/-- The inner loop agrees with the spec characterization: its round's read
events are prepended to the continuation's event stream. -/
theorem stepRound_spec (r : List (Side × Bytes)) (evs2 : List TEvent) :
    stepRound r ⟨writesTo Side.sv evs2, writesTo Side.cl evs2, stopReason evs2⟩ =
      ⟨writesTo Side.sv ((r.map (fun sd => TEvent.readEv sd.1 sd.2)) ++ evs2),
       writesTo Side.cl ((r.map (fun sd => TEvent.readEv sd.1 sd.2)) ++ evs2),
       stopReason ((r.map (fun sd => TEvent.readEv sd.1 sd.2)) ++ evs2)⟩ := by
  induction r with
  | nil => simp [stepRound]
  | cons sd rs ih =>
    rcases sd with ⟨s, d⟩
    by_cases hd : d = []
    · unfold stepRound
      simp only [if_pos hd]
      have hns : notStop (TEvent.readEv s d) = false := by
        simp [notStop, isStop, hd]
      unfold writesTo stopReason
      rw [List.map_cons, List.cons_append, List.takeWhile_cons, List.dropWhile_cons]
      simp [hns]
    · unfold stepRound
      simp only [if_neg hd]
      rw [ih]
      have hns : notStop (TEvent.readEv s d) = true := by
        simp [notStop, isStop, hd]
      cases s
      · simp only []
        unfold writesTo stopReason
        rw [List.map_cons, List.cons_append, List.takeWhile_cons, List.dropWhile_cons]
        simp [hns, List.filterMap_cons]
      · simp only []
        unfold writesTo stopReason
        rw [List.map_cons, List.cons_append, List.takeWhile_cons, List.dropWhile_cons]
        simp [hns, List.filterMap_cons]

/-- C5.  The ByteRelay terminates exactly at the first select timeout with
no readable socket or at the first zero-byte read — immediately, with no
half-duplex continuation — and every non-empty read before that point is
written, verbatim and in order, to the opposite socket.  (scriptEnd marks
an observation cut: the loop is still running when the modelled script
ends.) -/
theorem c5_relay (script : List (List (Side × Bytes))) :
    tunnelRun script =
      ⟨writesTo Side.sv (eventsOf script), writesTo Side.cl (eventsOf script),
       stopReason (eventsOf script)⟩ := by
  induction script with
  | nil => simp [tunnelRun, eventsOf, writesTo, stopReason]
  | cons r rest ih =>
    by_cases hr : r = []
    · unfold tunnelRun
      rw [if_pos hr, hr]
      simp [eventsOf, roundEvents, writesTo, stopReason, notStop, isStop]
    · unfold tunnelRun
      rw [if_neg hr, ih, stepRound_spec r (eventsOf rest)]
      have hev : eventsOf (r :: rest) =
          (r.map (fun sd => TEvent.readEv sd.1 sd.2)) ++ eventsOf rest := by
        unfold eventsOf roundEvents
        rw [List.map_cons, List.flatten_cons, if_neg hr]
      rw [hev]

/-! ### C6: the forwarded request bytes -/

/-- Membership after a dict assignment: either an untouched entry or the
assigned pair. -/
theorem dictInsert_mem (hs : List (PyStr × PyStr)) (k v : PyStr)
    (kv : PyStr × PyStr) (h : kv ∈ dictInsert hs k v) : kv ∈ hs ∨ kv = (k, v) := by
  induction hs with
  | nil =>
    unfold dictInsert at h
    simp at h
    exact Or.inr h
  | cons kv0 t ih =>
    unfold dictInsert at h
    by_cases h0 : kv0.1 = k
    · rw [if_pos h0] at h
      rcases List.mem_cons.mp h with h1 | h1
      · exact Or.inr h1
      · exact Or.inl (List.mem_cons.mpr (Or.inr h1))
    · rw [if_neg h0] at h
      rcases List.mem_cons.mp h with h1 | h1
      · exact Or.inl (List.mem_cons.mpr (Or.inl h1))
      · rcases ih h1 with h2 | h2
        · exact Or.inl (List.mem_cons.mpr (Or.inr h2))
        · exact Or.inr h2

/-- One parse step keeps every stored key lower-cased and every stored
value stripped. -/
theorem headerStep_wf (hs : List (PyStr × PyStr)) (line : PyStr)
    (hwf : ∀ kv ∈ hs, pyLower kv.1 = kv.1 ∧ pyStrip kv.2 = kv.2) :
    ∀ kv ∈ headerStep hs line, pyLower kv.1 = kv.1 ∧ pyStrip kv.2 = kv.2 := by
  intro kv hm
  unfold headerStep at hm
  by_cases hc : ':' ∈ line
  · rw [if_pos hc] at hm
    rcases hsf : splitFirst ':' line with _ | ab
    · rw [hsf] at hm
      exact hwf kv hm
    · rw [hsf] at hm
      simp only [] at hm
      rcases dictInsert_mem hs (pyLower ab.1) (pyStrip ab.2) kv hm with h1 | h1
      · exact hwf kv h1
      · rw [h1]
        exact ⟨pyLower_idem ab.1, pyStrip_idem ab.2⟩
  · rw [if_neg hc] at hm
    exact hwf kv hm

/-- The parse loop keeps every stored key lower-cased and every stored
value stripped, from any well-formed accumulator. -/
theorem foldl_headerStep_wf (lines : List PyStr) :
    ∀ (acc : List (PyStr × PyStr)),
      (∀ kv ∈ acc, pyLower kv.1 = kv.1 ∧ pyStrip kv.2 = kv.2) →
      ∀ kv ∈ lines.foldl headerStep acc, pyLower kv.1 = kv.1 ∧ pyStrip kv.2 = kv.2 := by
  induction lines with
  | nil =>
    intro acc ha kv hm
    rw [List.foldl_nil] at hm
    exact ha kv hm
  | cons l ls ih =>
    intro acc ha kv hm
    rw [List.foldl_cons] at hm
    exact ih (headerStep acc l) (headerStep_wf acc l ha) kv hm

/-- Every header parse_headers returns has a lower-cased key and a
stripped value. -/
theorem parse_headers_wf (text : PyStr) :
    ∀ kv ∈ (parse_headers text).2, pyLower kv.1 = kv.1 ∧ pyStrip kv.2 = kv.2 := by
  unfold parse_headers
  simp only []
  exact foldl_headerStep_wf (splitCRLF text).tail [] (by simp)

/-- The relay phase sends upstream exactly what it was handed. -/
theorem relayPhase_upstreamSent (opened : HandleResult) (sent : List Bytes)
    (logA : List LogEvent) (e : Env) :
    (relayPhase opened sent logA e).upstreamSent = sent := by
  unfold relayPhase
  rcases hro : e.relayOutcome with chunks | ⟨chunks, exc⟩
  · rfl
  · rcases exc with _ | m
    · rfl
    · rfl

/-- Whatever the body phase does, the first chunk sent upstream is the
serialized head. -/
theorem bodyPhase_upstreamSent_head (opened : HandleResult) (x : Bytes)
    (logA : List LogEvent) (headers : List (PyStr × PyStr)) (e : Env) :
    (bodyPhase opened [x] logA headers e).upstreamSent.head? = some x := by
  unfold bodyPhase
  rcases hdl : dictLookup headers clKey with _ | clv
  · rw [relayPhase_upstreamSent]
    rfl
  · simp only []
    rcases hpi : pyInt clv with _ | n
    · rfl
    · simp only []
      rcases hbo : e.bodyOutcome with body | exc
      · rw [relayPhase_upstreamSent]
        rfl
      · rcases exc with _ | m
        · rfl
        · rfl

/-- Once the upstream connect and the header send succeed, the first chunk
sent upstream is exactly the serialized head. -/
theorem forwardAfterDest_sent (b : List PyStr) (e : Env)
    (rl t v m : PyStr) (H : List (PyStr × PyStr)) (host : PyStr) (port : Int)
    (hb : host ∉ b) (hc : e.fconnectExc = none) (hs : e.fsendExc = none) :
    (forwardAfterDest b e rl t v m H host port).upstreamSent.head? =
      some (utf8Encode (serializeForward (rewriteLine m t v rl) H)) := by
  unfold forwardAfterDest
  rw [if_neg hb, hc]
  simp only []
  rw [hs]
  simp only []
  exact bodyPhase_upstreamSent_head _ _ _ H e

/-- C6.  The first bytes a forwarded request sends upstream are exactly the
(possibly rewritten) request line, CRLF, every parsed header in insertion
order as key colon space value CRLF, and a terminating blank line — UTF-8
encoded; and every parsed header already has a lower-cased key and a
stripped value. -/
theorem c6_forward_bytes (b : List PyStr) (e : Env)
    (m0 target version h : PyStr) (p : Int)
    (hne : e.headerBytes ≠ [])
    (hp : pySplitWS (parse_headersB e.headerBytes).1 = [m0, target, version])
    (hm : pyUpper m0 ≠ sCONNECT)
    (hd : forwardDest (parse_headersB e.headerBytes).2 = some (h, p))
    (hb : h ∉ b)
    (hc : e.fconnectExc = none)
    (hs : e.fsendExc = none) :
    (handle_client b e).upstreamSent.head? =
      some (utf8Encode
        (rewriteLine (pyUpper m0) target version (parse_headersB e.headerBytes).1 ++
          crlf ++ joinHeaders (parse_headersB e.headerBytes).2 ++ crlf)) ∧
    (∀ kv ∈ (parse_headersB e.headerBytes).2,
      pyLower kv.1 = kv.1 ∧ pyStrip kv.2 = kv.2) := by
  constructor
  · have hcl := handle_client_parts3 b e m0 target version hne hp
    rw [if_neg hm] at hcl
    rw [hcl, forwardBranch_dest b e (parse_headersB e.headerBytes).1 target version
      (pyUpper m0) (parse_headersB e.headerBytes).2 h p hd,
      forwardAfterDest_sent b e (parse_headersB e.headerBytes).1 target version
      (pyUpper m0) (parse_headersB e.headerBytes).2 h p hb hc hs]
    rfl
  · exact parse_headers_wf (decodeIgnore e.headerBytes)

def c6exS : String := "GET /p HTTP/1.1\r\nHost: EX.com\r\nX-A: b\r\n\r\n"

def c6targetS : String := "/p"

def c6hostS : String := "ex.com"

/-- Witness for C6 at a concrete two-header request. -/
theorem c6_witness :
    (handle_client [] (envOf c6exS)).upstreamSent.head? =
      some (utf8Encode
        (rewriteLine (pyUpper mGETS.data) c6targetS.data verS.data
          (parse_headersB (utf8Encode c6exS.data)).1 ++ crlf ++
          joinHeaders (parse_headersB (utf8Encode c6exS.data)).2 ++ crlf)) := by
  exact (c6_forward_bytes [] (envOf c6exS) mGETS.data c6targetS.data verS.data
    c6hostS.data 80 (by decide) (by decide) (by decide) (by decide) (by simp)
    (by decide) (by decide)).1

/-! ### C10: duplicate headers and totality of parsing -/

/-- Spec-side: the (lower-cased) header name a raw line contributes, none
when the line has no colon. -/
def headerKeyOf (line : PyStr) : Option PyStr :=
  if ':' ∈ line then (splitFirst ':' line).map (fun ab => pyLower ab.1) else none

/-- Spec-side: the (stripped) value a raw line contributes. -/
def headerValOf (line : PyStr) : Option PyStr :=
  if ':' ∈ line then (splitFirst ':' line).map (fun ab => pyStrip ab.2) else none

/-- Spec-side: deduplicate keeping the first occurrence of each element. -/
def dedupFirst : List PyStr → List PyStr
  | [] => []
  | k :: t => k :: (dedupFirst t).filter (fun x => decide (x ≠ k))

/-- Spec-side: the value contributed by the last line carrying the given
(case-insensitive) header name. -/
def lastVal (k : PyStr) : List PyStr → Option PyStr
  | [] => none
  | l :: ls =>
    match lastVal k ls with
    | some v => some v
    | none => if headerKeyOf l = some k then headerValOf l else none

/-- Looking up the key just assigned yields the assigned value. -/
theorem dictLookup_insert_self (hs : List (PyStr × PyStr)) (k v : PyStr) :
    dictLookup (dictInsert hs k v) k = some v := by
  induction hs with
  | nil => simp [dictInsert, dictLookup]
  | cons kv t ih =>
    unfold dictInsert
    by_cases h0 : kv.1 = k
    · rw [if_pos h0]
      unfold dictLookup
      simp
    · rw [if_neg h0]
      unfold dictLookup
      rw [if_neg h0]
      exact ih

/-- Assigning one key leaves the lookup of any other key unchanged. -/
theorem dictLookup_insert_ne (hs : List (PyStr × PyStr)) (k v k' : PyStr)
    (hne : k' ≠ k) :
    dictLookup (dictInsert hs k v) k' = dictLookup hs k' := by
  induction hs with
  | nil =>
    simp [dictInsert, dictLookup, Ne.symm hne]
  | cons kv t ih =>
    unfold dictInsert
    by_cases h0 : kv.1 = k
    · rw [if_pos h0]
      unfold dictLookup
      have h1 : ¬ ((k, v).1 = k') := fun he => hne (Eq.symm he)
      have h2 : ¬ (kv.1 = k') := by
        rw [h0]
        exact fun he => hne he.symm
      rw [if_neg h1, if_neg h2]
    · rw [if_neg h0]
      unfold dictLookup
      by_cases h1 : kv.1 = k'
      · rw [if_pos h1, if_pos h1]
      · rw [if_neg h1, if_neg h1]
        exact ih

/-- Assigning an already-present key keeps the key list unchanged (the
entry keeps its position). -/
theorem keys_insert_mem (hs : List (PyStr × PyStr)) (k v : PyStr)
    (h : k ∈ hs.map Prod.fst) :
    (dictInsert hs k v).map Prod.fst = hs.map Prod.fst := by
  induction hs with
  | nil => simp at h
  | cons kv t ih =>
    unfold dictInsert
    by_cases h0 : kv.1 = k
    · rw [if_pos h0]
      simp [h0]
    · rw [if_neg h0]
      rw [List.map_cons, List.map_cons]
      congr 1
      apply ih
      rw [List.map_cons] at h
      rcases List.mem_cons.mp h with h1 | h1
      · exact absurd h1.symm h0
      · exact h1

/-- Assigning a fresh key appends it at the end of the key list. -/
theorem keys_insert_not_mem (hs : List (PyStr × PyStr)) (k v : PyStr)
    (h : k ∉ hs.map Prod.fst) :
    (dictInsert hs k v).map Prod.fst = hs.map Prod.fst ++ [k] := by
  induction hs with
  | nil => simp [dictInsert]
  | cons kv t ih =>
    unfold dictInsert
    by_cases h0 : kv.1 = k
    · exfalso
      apply h
      rw [List.map_cons]
      exact List.mem_cons.mpr (Or.inl h0.symm)
    · rw [if_neg h0, List.map_cons, List.map_cons, List.cons_append]
      congr 1
      apply ih
      intro hmem
      apply h
      rw [List.map_cons]
      exact List.mem_cons.mpr (Or.inr hmem)

/-- Equation of lastVal on a cons. -/
theorem lastVal_cons (k l : PyStr) (ls : List PyStr) :
    lastVal k (l :: ls) =
      match lastVal k ls with
      | some v => some v
      | none => if headerKeyOf l = some k then headerValOf l else none := rfl

/-- Equation of dedupFirst on a cons. -/
theorem dedupFirst_cons (k : PyStr) (t : List PyStr) :
    dedupFirst (k :: t) = k :: (dedupFirst t).filter (fun x => decide (x ≠ k)) := rfl

/-- The parsed value of each key is the one contributed by the last line
with that name; keys absent from the lines fall through to the
accumulator. -/
theorem lookup_foldl (lines : List PyStr) :
    ∀ (acc : List (PyStr × PyStr)) (k : PyStr),
      dictLookup (lines.foldl headerStep acc) k =
        match lastVal k lines with
        | some v => some v
        | none => dictLookup acc k := by
  induction lines with
  | nil =>
    intro acc k
    simp [lastVal]
  | cons l ls ih =>
    intro acc k
    rw [List.foldl_cons, ih (headerStep acc l) k, lastVal_cons]
    rcases hlv : lastVal k ls with _ | v
    · simp only []
      by_cases hk : headerKeyOf l = some k
      · rw [if_pos hk]
        have hk2 := hk
        unfold headerKeyOf at hk2
        by_cases hc : ':' ∈ l
        · rw [if_pos hc] at hk2
          rcases hsf : splitFirst ':' l with _ | ab
          · rw [hsf] at hk2
            exact absurd hk2 (by simp)
          · rw [hsf] at hk2
            simp only [Option.map_some', Option.some.injEq] at hk2
            have hstep : headerStep acc l = dictInsert acc (pyLower ab.1) (pyStrip ab.2) := by
              unfold headerStep
              rw [if_pos hc, hsf]
            have hval : headerValOf l = some (pyStrip ab.2) := by
              unfold headerValOf
              rw [if_pos hc, hsf]
              rfl
            rw [hstep, hval, hk2]
            simp only []
            exact dictLookup_insert_self acc k (pyStrip ab.2)
        · rw [if_neg hc] at hk2
          exact absurd hk2 (by simp)
      · rw [if_neg hk]
        simp only []
        unfold headerStep
        by_cases hc : ':' ∈ l
        · rw [if_pos hc]
          rcases hsf : splitFirst ':' l with _ | ab
          · rfl
          · simp only []
            have hne : pyLower ab.1 ≠ k := by
              intro he
              apply hk
              unfold headerKeyOf
              rw [if_pos hc, hsf]
              simp [he]
            exact dictLookup_insert_ne acc (pyLower ab.1) (pyStrip ab.2) k (Ne.symm hne)
        · rw [if_neg hc]
    · simp only []

/-- The parsed key list is the first-occurrence deduplication of the lines'
key stream, relative to the accumulator's keys. -/
theorem keys_foldl (lines : List PyStr) :
    ∀ acc : List (PyStr × PyStr),
      (lines.foldl headerStep acc).map Prod.fst =
        acc.map Prod.fst ++
          (dedupFirst (lines.filterMap headerKeyOf)).filter
            (fun x => decide (x ∉ acc.map Prod.fst)) := by
  induction lines with
  | nil =>
    intro acc
    simp [dedupFirst]
  | cons l ls ih =>
    intro acc
    rw [List.foldl_cons, ih (headerStep acc l)]
    by_cases hc : ':' ∈ l
    · rcases hsf : splitFirst ':' l with _ | ab
      · exact absurd ((splitFirst_eq_none_iff ':' l).mp hsf) (by simp [hc])
      · have hkey : headerKeyOf l = some (pyLower ab.1) := by
          unfold headerKeyOf
          rw [if_pos hc, hsf]
          rfl
        have hstep : headerStep acc l = dictInsert acc (pyLower ab.1) (pyStrip ab.2) := by
          unfold headerStep
          rw [if_pos hc, hsf]
        rw [hstep, List.filterMap_cons, hkey]
        simp only []
        rw [dedupFirst_cons]
        by_cases hmem : pyLower ab.1 ∈ acc.map Prod.fst
        · rw [keys_insert_mem acc (pyLower ab.1) (pyStrip ab.2) hmem]
          rw [List.filter_cons]
          have hkfalse : decide (pyLower ab.1 ∉ acc.map Prod.fst) = false := by
            simp [hmem]
          rw [hkfalse]
          simp only [Bool.false_eq_true, if_false]
          rw [List.filter_filter]
          congr 1
          apply List.filter_congr
          intro x hx
          by_cases hxa : x ∈ acc.map Prod.fst
          · simp [hxa]
          · have hxk : x ≠ pyLower ab.1 := by
              intro he
              rw [he] at hxa
              exact hxa hmem
            simp [hxa, hxk]
        · rw [keys_insert_not_mem acc (pyLower ab.1) (pyStrip ab.2) hmem]
          rw [List.filter_cons]
          have hktrue : decide (pyLower ab.1 ∉ acc.map Prod.fst) = true := by
            simp [hmem]
          rw [hktrue]
          simp only [if_true]
          rw [List.filter_filter, List.append_assoc, List.singleton_append]
          congr 2
          apply List.filter_congr
          intro x hx
          by_cases hxk : x = pyLower ab.1
          · simp [hxk, List.mem_append]
          · by_cases hxa : x ∈ acc.map Prod.fst
            · simp [hxk, hxa, List.mem_append]
            · simp [hxk, hxa, List.mem_append]
    · have hkey : headerKeyOf l = none := by
        unfold headerKeyOf
        rw [if_neg hc]
      have hstep : headerStep acc l = acc := by
        unfold headerStep
        rw [if_neg hc]
      rw [hstep, List.filterMap_cons, hkey]

/-- First-occurrence deduplication never repeats an element. -/
theorem dedupFirst_nodup (l : List PyStr) : (dedupFirst l).Nodup := by
  induction l with
  | nil => simp [dedupFirst]
  | cons k t ih =>
    unfold dedupFirst
    refine List.Nodup.cons ?_ (List.Nodup.filter _ ih)
    intro hmem
    have hdec := List.of_mem_filter hmem
    simp at hdec

/-- C10.  parse_headers is total on every byte sequence (it is a function
on all of Bytes, invalid UTF-8 included), and its ordered mapping keeps,
for each (case-insensitively) repeated header name, exactly one entry — at
the position of the name's first occurrence (the key list is the
first-occurrence dedup of the line keys, hence duplicate-free) — whose
value comes from the last occurrence. -/
theorem c10_duplicate_headers (bs : Bytes) :
    ((parse_headersB bs).2.map Prod.fst =
      dedupFirst (((splitCRLF (decodeIgnore bs)).tail).filterMap headerKeyOf)) ∧
    ((parse_headersB bs).2.map Prod.fst).Nodup ∧
    (∀ k, dictLookup (parse_headersB bs).2 k =
      lastVal k ((splitCRLF (decodeIgnore bs)).tail)) := by
  have hkeys : (parse_headersB bs).2.map Prod.fst =
      dedupFirst (((splitCRLF (decodeIgnore bs)).tail).filterMap headerKeyOf) := by
    unfold parse_headersB parse_headers
    simp only []
    rw [keys_foldl ((splitCRLF (decodeIgnore bs)).tail) []]
    simp
  refine ⟨hkeys, ?_, ?_⟩
  · rw [hkeys]
    exact dedupFirst_nodup _
  · intro k
    unfold parse_headersB parse_headers
    simp only []
    rw [lookup_foldl ((splitCRLF (decodeIgnore bs)).tail) [] k]
    rcases hlv : lastVal k ((splitCRLF (decodeIgnore bs)).tail) with _ | v
    · rfl
    · rfl

end ProxySpec
